import Mathlib

/-!
Shallow embedding of the SVD image compressor (`src/App.js`) and proofs
about the claims of its specification.

Matrices are `List (List ℚ)` (JavaScript arrays of arrays of numbers,
modelled in exact rational arithmetic).  A raster is the `ImageData`
record: width, height, and a flat RGBA byte sequence.
-/

namespace SVDComp

/-- A JavaScript matrix: an array of row arrays of numbers. -/
abbrev Mat := List (List ℚ)

/-- Number of columns as the source reads it: `mat[0].length`
(the length of the first row).  On an empty matrix the source expression
would fail (`mat[0]` is undefined); this reading yields `0` there, a
degenerate case reachable only from zero-height rasters and relied on by
no theorem below. -/
def numcols (A : Mat) : ℕ := (A.headD []).length

/-- Embedding of `numeric.transpose`: the result has `A[0].length` rows,
and `ret[j][i] = A[i][j]`. -/
def transpose (A : Mat) : Mat :=
  (List.range (numcols A)).map (fun j => A.map (fun row => row.getD j 0))

/-- Embedding of `numeric.diag`: square matrix with `d` on the diagonal. -/
def diag (d : List ℚ) : Mat :=
  (List.range d.length).map (fun i =>
    (List.range d.length).map (fun j => if i = j then d.getD i 0 else 0))

/-- Embedding of the matrix-matrix case of `numeric.dot(A, B)`:
`ret[i][j] = sum over rows t of B of A[i][t] * B[t][j]`, exact for
shape-correct operands (rows of `A` at least as long as `B`).  The full
dimension dispatch of `numeric.dot`, including the degenerate operands
that make the library yield NaN or throw, is modelled separately by
`jsDotMatMat` and `jsDotOuter` below. -/
def dot (A B : Mat) : Mat :=
  A.map (fun row =>
    (List.range (numcols B)).map (fun j =>
      ((List.range B.length).map (fun t => row.getD t 0 * (B.getD t []).getD j 0)).sum))

/-- Embedding of `arr.slice(0, e)` for a JavaScript number `e`:
a negative end index counts from the end of the array. -/
def jsSlice {α : Type} (l : List α) (e : ℤ) : List α :=
  l.take (if e < 0 then ((l.length : ℤ) + e).toNat else e.toNat)

/-- The decoded image: `ImageData` with a flat RGBA channel sequence
(`data`, row-major, 4 bytes per pixel). -/
structure Raster where
  width : ℕ
  height : ℕ
  data : List ℕ
deriving Repr, DecidableEq

/-- Embedding of the grayscale build (`App.js` lines 52-58):
`gray[r][c] = 0.299*R + 0.587*G + 0.114*B` with the channels read at
flat index `(r*width + c)*4`. -/
def grayMatrix (img : Raster) : Mat :=
  (List.range img.height).map (fun r =>
    (List.range img.width).map (fun c =>
      let idx := (r * img.width + c) * 4
      (299 / 1000 : ℚ) * (img.data.getD idx 0 : ℕ)
        + (587 / 1000 : ℚ) * (img.data.getD (idx + 1) 0 : ℕ)
        + (114 / 1000 : ℚ) * (img.data.getD (idx + 2) 0 : ℕ)))

/-- Entry of a list-of-lists matrix, reading out of range as `0`
(the value JavaScript arithmetic would feed through `getD`s here). -/
def entryD (A : Mat) (r c : ℕ) : ℚ := (A.getD r []).getD c 0

/-- Clamp of `App.js` line 81: `Math.min(Math.max(v, 0), 255)`. -/
def clamp255 (v : ℚ) : ℚ := min (max v 0) 255

/-- Round to the nearest integer, ties to even: the conversion a
`Uint8ClampedArray` element assignment applies to the clamped value. -/
def roundHalfEven (v : ℚ) : ℤ :=
  if v - ⌊v⌋ > 1 / 2 then ⌊v⌋ + 1
  else if v - ⌊v⌋ < 1 / 2 then ⌊v⌋
  else if 2 ∣ ⌊v⌋ then ⌊v⌋ else ⌊v⌋ + 1

/-- Channel sequence produced by the canvas write loop (`App.js` lines
79-86): pixel `p` of the fresh `ImageData` holds the clamped, rounded
luminance `recon[p / width][p % width]` in R, G, B and `255` in A. -/
def writeData (width height : ℕ) (recon : Mat) : List ℕ :=
  (List.range (height * width)).flatMap (fun p =>
    let lum := (roundHalfEven (clamp255 (entryD recon (p / width) (p % width)))).toNat
    [lum, lum, lum, 255])

/-- Embedding of the canvas write (`App.js` lines 78-86): a fresh
`width`×`height` `ImageData` filled by the write loop. -/
def writeRaster (width height : ℕ) (recon : Mat) : Raster :=
  ⟨width, height, writeData width height recon⟩

/-- Effective rank of `App.js` line 66: `Math.min(kValue, maxRank)`. -/
def kEffOf (kValue : ℤ) (maxRank : ℕ) : ℤ := min kValue (maxRank : ℤ)

/-- Matrix handed to `numeric.svd` (lines 60-62): the grayscale matrix,
transposed when the image is wider than tall (`tall = height >= width`). -/
def matOf (img : Raster) : Mat :=
  if img.width ≤ img.height then grayMatrix img else transpose (grayMatrix img)

/-- Embedding of `maxRank` (lines 63-65): the smaller of `mat.length`
and `mat[0].length`. -/
def maxRankOf (img : Raster) : ℕ := min (matOf img).length (numcols (matOf img))

/-- Truncation and reconstruction (lines 70-73): keep the first `kEff`
columns of `U` and `V` and the first `kEff` singular values, then form
`Uk · Sk · Vkᵀ`. -/
def truncRecon (U : Mat) (S : List ℚ) (V : Mat) (kEff : ℤ) : Mat :=
  let Uk := U.map (fun row => jsSlice row kEff)
  let Sk := diag (jsSlice S kEff)
  let VkT := V.map (fun row => jsSlice row kEff)
  dot Uk (dot Sk (transpose VkT))

/-- Outcome of a `numeric.dot` call during reconstruction: an actual
matrix, a vector whose entries are all NaN, the bare number NaN, or a
thrown exception that aborts the run. -/
inductive DotOut where
  | mat : Mat → DotOut
  | nanVec : ℕ → DotOut
  | scalarNaN : DotOut
  | thrown : DotOut
deriving Repr, DecidableEq

/-- Embedding of `numeric.dot` on two arrays of row arrays, following the
`numeric.dim` dispatch: an empty array has dimension list `[0]` (a
vector), a nonempty array of rows has `[rows, columns of first row]`.
Two empty vectors reach `dotVV`, which multiplies two out-of-range reads
into the number NaN.  A vector with a matrix reaches `dotVM`, which
indexes the vector side at -1: it throws unless the matrix has zero
columns, when its loop body never runs and it returns the empty array.  A
matrix with a vector reaches `dotMV`, whose per-row `dotVV` reads out of
range and fills a vector with NaN.  Two matrices multiply. -/
def jsDotMatMat (A B : Mat) : DotOut :=
  match A, B with
  | [], [] => DotOut.scalarNaN
  | [], b :: _ => if b = [] then DotOut.mat [] else DotOut.thrown
  | a :: as, [] => DotOut.nanVec (a :: as).length
  | a :: as, b :: bs => DotOut.mat (dot (a :: as) (b :: bs))

/-- Embedding of the outer `numeric.dot(Uk, inner)` of line 73 once the
inner call is evaluated.  A matrix inner re-enters the array dispatch; a
thrown inner exception propagates (the outer call never runs).  A bare
NaN inner has dimension list `[]`: against an empty `Uk` this is the
vector-scalar case `mulVS`, mapping the empty array to itself, and
against a nonempty `Uk` the dimension code 2000 matches no dispatch case,
so `numeric.dot` throws.  A NaN-vector inner against an empty `Uk` is
`dotVV` with an empty left vector (NaN), and against a nonempty `Uk` is
`dotMV`, one NaN per row. -/
def jsDotOuter (A : Mat) (inner : DotOut) : DotOut :=
  match inner with
  | DotOut.mat B => jsDotMatMat A B
  | DotOut.thrown => DotOut.thrown
  | DotOut.scalarNaN =>
    match A with
    | [] => DotOut.mat []
    | _ :: _ => DotOut.thrown
  | DotOut.nanVec _ =>
    match A with
    | [] => DotOut.scalarNaN
    | a :: as => DotOut.nanVec (a :: as).length

/-- Error-aware embedding of the reconstruction (lines 70-73): the same
truncation as `truncRecon`, with line 73 evaluated through the
`numeric.dot` dimension dispatch so that degenerate truncated factors
surface the library's NaN and thrown-error behavior instead of a
matrix. -/
def truncReconE (U : Mat) (S : List ℚ) (V : Mat) (kEff : ℤ) : DotOut :=
  let Uk := U.map (fun row => jsSlice row kEff)
  let Sk := diag (jsSlice S kEff)
  let VkT := V.map (fun row => jsSlice row kEff)
  jsDotOuter Uk (jsDotMatMat Sk (transpose VkT))

/-- Pipeline body after the effective rank is fixed (lines 68-87):
decompose, truncate, reconstruct, undo the orientation transpose, and
write the raster. -/
def compressAtKEff (svd : Mat → Mat × List ℚ × Mat) (img : Raster) (kEff : ℤ) : Raster :=
  let mat := matOf img
  let USV := svd mat
  let recon0 := truncRecon USV.1 USV.2.1 USV.2.2 kEff
  let recon := if img.width ≤ img.height then recon0 else transpose recon0
  writeRaster img.width img.height recon

/-- Embedding of the computational body of `compressImage` (lines 40-87),
with the external `numeric.svd` routine passed in as an oracle. -/
def compressCore (svd : Mat → Mat × List ℚ × Mat) (img : Raster) (kValue : ℤ) : Raster :=
  compressAtKEff svd img (kEffOf kValue (maxRankOf img))

/-- Forward orientation normalization (lines 60-62) viewed on the matrix:
a matrix with fewer rows than columns is transposed, and the returned flag
records that the transpose happened (`!tall`). -/
def orientForward (A : Mat) : Mat × Bool :=
  (if numcols A ≤ A.length then A else transpose A, decide (A.length < numcols A))

/-- Inverse orientation step (line 75): transpose back exactly when the
forward step transposed. -/
def orientInverse (A : Mat) (flag : Bool) : Mat := if flag then transpose A else A

/-- Component state touched by `compressImage`: the uploaded file, the
generation counter `genRef.current`, and the published outputs. -/
structure AppState where
  file : Option ℕ
  genCounter : ℕ
  isCompressing : Bool
  compressedURL : Option ℕ
  compSize : ℕ
deriving Repr, DecidableEq

/-- Submission prefix of `compressImage` (lines 35-38): bail out when no
file is loaded; otherwise take the next generation number as `myGen` and
mark compression in progress.  Returns the new state and the tag of the
computation that starts (`none` when nothing starts). -/
def submitStep (s : AppState) : AppState × Option ℕ :=
  match s.file with
  | none => (s, none)
  | some _ =>
    ({ s with genCounter := s.genCounter + 1, isCompressing := true },
      some (s.genCounter + 1))

/-- Publication suffix of `compressImage` (lines 91-96): a finished
computation tagged `myGen` is discarded unless its tag still equals the
generation counter; otherwise its blob and size are published and the
in-progress flag cleared. -/
def completeStep (s : AppState) (myGen blob blobSize : ℕ) : AppState :=
  if s.genCounter ≠ myGen then s
  else { s with compSize := blobSize, compressedURL := some blob, isCompressing := false }

/-- Modelled from the spec: the SVDEngine contract of §4.3 for the
external `numeric.svd` routine, which is a library dependency and not part
of this repository, restricted to the reconstruction invariant of §3: the
factors multiply back to the decomposed matrix, `A = U·diag(S)·Vᵀ` (exact
arithmetic stands in for "within numerical tolerance"). -/
def IsExactSVD (A U : Mat) (S : List ℚ) (V : Mat) : Prop :=
  dot U (dot (diag S) (transpose V)) = A

/-- A 1×1 test raster: a single gray pixel (100, 100, 100, 255). -/
def raster1 : Raster := ⟨1, 1, [100, 100, 100, 255]⟩

/-- Oracle returning the exact decomposition of the 1×1 matrix [[100]]. -/
def svdOne : Mat → Mat × List ℚ × Mat := fun _ => ([[1]], [100], [[1]])

/-- A degenerate raster with zero width and one row. -/
def raster0w : Raster := ⟨0, 1, []⟩

/-- A 2×2 test raster whose luminance matrix is the diagonal
[[200, 0], [0, 100]] (gray pixels of values 200, 0, 0, 100). -/
def raster2 : Raster :=
  ⟨2, 2, [200, 200, 200, 255, 0, 0, 0, 255, 0, 0, 0, 255, 100, 100, 100, 255]⟩

/-- Oracle returning the exact decomposition of the diagonal matrix
[[200, 0], [0, 100]]: identity singular vectors, values 200 and 100. -/
def svdDiag : Mat → Mat × List ℚ × Mat :=
  fun _ => ([[1, 0], [0, 1]], [200, 100], [[1, 0], [0, 1]])

/-! Basic indexing lemmas. -/

theorem getD_range_map {α : Type} (f : ℕ → α) (n j : ℕ) (d : α) (h : j < n) :
    ((List.range n).map f).getD j d = f j := by
  rw [List.getD_eq_getElem?_getD, List.getElem?_map, List.getElem?_range h]
  rfl

theorem getD_map_of_lt {α β : Type} (f : α → β) (l : List α) (j : ℕ) (d : β) (d₀ : α)
    (h : j < l.length) : (l.map f).getD j d = f (l.getD j d₀) := by
  rw [List.getD_eq_getElem?_getD, List.getElem?_map,
    List.getElem?_eq_getElem h, List.getD_eq_getElem l d₀ h]
  rfl

theorem getD_map_of_ge {α β : Type} (f : α → β) (l : List α) (j : ℕ) (d : β)
    (h : l.length ≤ j) : (l.map f).getD j d = d := by
  rw [List.getD_eq_getElem?_getD, List.getElem?_map, List.getElem?_eq_none h]
  rfl

/-! Shape and involution facts about `transpose`. -/

theorem length_transpose (A : Mat) : (transpose A).length = numcols A := by
  simp [transpose]

theorem mem_transpose_length (A : Mat) : ∀ row ∈ transpose A, row.length = A.length := by
  intro row hrow
  simp only [transpose, List.mem_map, List.mem_range] at hrow
  obtain ⟨j, _, rfl⟩ := hrow
  simp

theorem numcols_eq (A : Mat) (n : ℕ) (hne : A ≠ []) (h : ∀ row ∈ A, row.length = n) :
    numcols A = n := by
  cases A with
  | nil => exact absurd rfl hne
  | cons r t => exact h r (List.mem_cons_self r t)

theorem getD_transpose (A : Mat) (j : ℕ) (hj : j < numcols A) :
    (transpose A).getD j [] = A.map (fun row => row.getD j 0) := by
  unfold transpose
  exact getD_range_map _ _ _ _ hj

theorem entryD_transpose (A : Mat) (j i : ℕ) (hj : j < numcols A) :
    entryD (transpose A) j i = entryD A i j := by
  unfold entryD
  rw [getD_transpose A j hj]
  by_cases hi : i < A.length
  · rw [getD_map_of_lt _ _ _ _ [] hi]
  · rw [getD_map_of_ge _ _ _ _ (Nat.le_of_not_lt hi),
      List.getD_eq_getElem?_getD A i [], List.getElem?_eq_none (Nat.le_of_not_lt hi)]
    rfl

theorem transpose_rect (A : Mat) (n : ℕ) (h : ∀ row ∈ A, row.length = n)
    (hne : A ≠ []) :
    (transpose A).length = n ∧ ∀ row ∈ transpose A, row.length = A.length := by
  refine ⟨?_, mem_transpose_length A⟩
  rw [length_transpose, numcols_eq A n hne h]

theorem transpose_transpose (A : Mat) (m n : ℕ) (hm : A.length = m)
    (hn : ∀ row ∈ A, row.length = n) (hm1 : 0 < m) (hn1 : 0 < n) :
    transpose (transpose A) = A := by
  have hne : A ≠ [] := by
    intro h0
    rw [h0] at hm
    simp at hm
    omega
  have hcols : numcols A = n := numcols_eq A n hne hn
  have hlenT : (transpose A).length = n := by rw [length_transpose, hcols]
  have hrowT : ∀ row ∈ transpose A, row.length = m := by
    intro row hrow
    rw [mem_transpose_length A row hrow, hm]
  have hTne : transpose A ≠ [] :=
    List.ne_nil_of_length_pos (by rw [hlenT]; exact hn1)
  have hcolsT : numcols (transpose A) = m := numcols_eq _ m hTne hrowT
  apply List.ext_getElem
  · rw [length_transpose, hcolsT, hm]
  · intro i h₁ h₂
    have hi : i < m := by rwa [hm] at h₂
    rw [← List.getD_eq_getElem (transpose (transpose A)) [] h₁,
      ← List.getD_eq_getElem A [] h₂,
      getD_transpose (transpose A) i (by rwa [hcolsT])]
    have hAi : A.getD i [] ∈ A := by
      rw [List.getD_eq_getElem A [] h₂]
      exact List.getElem_mem h₂
    have hAlen : (A.getD i []).length = n := hn _ hAi
    apply List.ext_getElem
    · rw [List.length_map, hlenT, hAlen]
    · intro j hj₁ hj₂
      have hjn : j < n := by rwa [hAlen] at hj₂
      rw [← List.getD_eq_getElem ((transpose A).map (fun row => row.getD i 0)) 0 hj₁,
        ← List.getD_eq_getElem (A.getD i []) 0 hj₂,
        getD_map_of_lt _ _ _ _ [] (by rw [hlenT]; exact hjn),
        getD_transpose A j (by rwa [hcols]),
        getD_map_of_lt _ _ _ _ [] h₂]

/-! Indexing into the flat channel sequence built by the write loop. -/

theorem length_flatMap_const (f : ℕ → List ℕ) (k N : ℕ) (hf : ∀ p, (f p).length = k) :
    ((List.range N).flatMap f).length = k * N := by
  rw [List.length_flatMap]
  have hmap : (List.range N).map (List.length ∘ f) = List.replicate N k := by
    apply List.ext_getElem
    · simp
    · intro i h₁ h₂
      simp [hf]
  rw [hmap, List.sum_replicate, smul_eq_mul, Nat.mul_comm]

theorem getElem?_flatMap_const (f : ℕ → List ℕ) (k N p j : ℕ) (hf : ∀ p, (f p).length = k)
    (hp : p < N) (hj : j < k) : ((List.range N).flatMap f)[k * p + j]? = (f p)[j]? := by
  induction N with
  | zero => omega
  | succ N ih =>
    rw [List.range_succ, List.flatMap_append]
    have hlen : ((List.range N).flatMap f).length = k * N := length_flatMap_const f k N hf
    by_cases h : p < N
    · rw [List.getElem?_append_left]
      · exact ih h
      · rw [hlen]
        have h1 : k * (p + 1) ≤ k * N := Nat.mul_le_mul_left k h
        have h2 : k * (p + 1) = k * p + k := by ring
        omega
    · have hpN : p = N := by omega
      subst hpN
      rw [List.getElem?_append_right (by rw [hlen]; omega), hlen]
      have hone : [p].flatMap f = f p := by simp
      rw [hone]
      congr 1
      omega

theorem writeData_length (W H : ℕ) (recon : Mat) :
    (writeData W H recon).length = 4 * (H * W) :=
  length_flatMap_const _ 4 _ (fun _ => rfl)

theorem writeData_getElem? (W H : ℕ) (recon : Mat) (p j : ℕ) (hp : p < H * W)
    (hj : j < 4) :
    (writeData W H recon)[4 * p + j]? =
      [(roundHalfEven (clamp255 (entryD recon (p / W) (p % W)))).toNat,
       (roundHalfEven (clamp255 (entryD recon (p / W) (p % W)))).toNat,
       (roundHalfEven (clamp255 (entryD recon (p / W) (p % W)))).toNat, 255][j]? :=
  getElem?_flatMap_const _ 4 _ p j (fun _ => rfl) hp hj

theorem writeData_mem (W H : ℕ) (recon : Mat) (x : ℕ) (hx : x ∈ writeData W H recon) :
    (∃ p, x = (roundHalfEven (clamp255 (entryD recon (p / W) (p % W)))).toNat) ∨ x = 255 := by
  unfold writeData at hx
  rw [List.mem_flatMap] at hx
  obtain ⟨p, _, hxp⟩ := hx
  simp only [List.mem_cons, List.not_mem_nil, or_false] at hxp
  rcases hxp with h | h | h | h
  · exact Or.inl ⟨p, h⟩
  · exact Or.inl ⟨p, h⟩
  · exact Or.inl ⟨p, h⟩
  · exact Or.inr h

/-! Facts about the clamp and the rounding of the canvas write. -/

theorem clamp255_nonneg (v : ℚ) : 0 ≤ clamp255 v :=
  le_min (le_max_right v 0) (by norm_num)

theorem clamp255_le (v : ℚ) : clamp255 v ≤ 255 := min_le_right _ _

theorem roundHalfEven_dist (v : ℚ) : |((roundHalfEven v : ℤ) : ℚ) - v| ≤ 1 / 2 := by
  have h0 : (0 : ℚ) ≤ v - ⌊v⌋ := by
    have := Int.floor_le v
    linarith
  have h1 : v - ⌊v⌋ < 1 := by
    have := Int.lt_floor_add_one v
    linarith
  unfold roundHalfEven
  split_ifs with hgt hlt heven
  · push_cast
    rw [abs_le]
    constructor <;> linarith
  · rw [abs_le]
    constructor <;> linarith
  · rw [abs_le]
    constructor <;> linarith
  · have hv : v - ⌊v⌋ = 1 / 2 := le_antisymm (not_lt.mp hgt) (not_lt.mp hlt)
    push_cast
    rw [abs_le]
    constructor <;> linarith

theorem roundHalfEven_nonneg (v : ℚ) (h : 0 ≤ v) : 0 ≤ roundHalfEven v := by
  have hf : 0 ≤ ⌊v⌋ := Int.floor_nonneg.mpr h
  unfold roundHalfEven
  split_ifs <;> omega

theorem roundHalfEven_le255 (v : ℚ) (h : v ≤ 255) : roundHalfEven v ≤ 255 := by
  have hf : ⌊v⌋ ≤ 255 := by
    have h2 : ⌊v⌋ ≤ ⌊(255 : ℚ)⌋ := Int.floor_le_floor h
    simpa using h2
  have hfq : ∀ h255 : ⌊v⌋ = 255, (⌊v⌋ : ℚ) = 255 := by
    intro h255
    exact_mod_cast h255
  unfold roundHalfEven
  split_ifs with hgt hlt heven
  · have hltf : ⌊v⌋ < 255 := by
      by_contra hcon
      have := hfq (by omega)
      linarith
    omega
  · omega
  · omega
  · have hv : v - ⌊v⌋ = 1 / 2 := le_antisymm (not_lt.mp hgt) (not_lt.mp hlt)
    have hltf : ⌊v⌋ < 255 := by
      by_contra hcon
      have := hfq (by omega)
      linarith
    omega

theorem lum_le_255 (v : ℚ) : (roundHalfEven (clamp255 v)).toNat ≤ 255 := by
  rw [Int.toNat_le]
  exact_mod_cast roundHalfEven_le255 _ (clamp255_le v)

theorem lum_cast (v : ℚ) :
    (((roundHalfEven (clamp255 v)).toNat : ℕ) : ℚ) = ((roundHalfEven (clamp255 v) : ℤ) : ℚ) := by
  have h0 : 0 ≤ roundHalfEven (clamp255 v) := roundHalfEven_nonneg _ (clamp255_nonneg v)
  exact_mod_cast congrArg (fun z : ℤ => (z : ℚ)) (Int.toNat_of_nonneg h0)

theorem lum_dist (v : ℚ) :
    |(((roundHalfEven (clamp255 v)).toNat : ℕ) : ℚ) - clamp255 v| ≤ 1 / 2 := by
  rw [lum_cast]
  exact roundHalfEven_dist _

/-! Shape facts about the luminance matrix and the normalized matrix. -/

theorem grayMatrix_length (img : Raster) : (grayMatrix img).length = img.height := by
  simp [grayMatrix]

theorem grayMatrix_rows (img : Raster) : ∀ row ∈ grayMatrix img, row.length = img.width := by
  intro row hrow
  simp only [grayMatrix, List.mem_map, List.mem_range] at hrow
  obtain ⟨r, _, rfl⟩ := hrow
  simp

theorem numcols_grayMatrix (img : Raster) (hH : 0 < img.height) :
    numcols (grayMatrix img) = img.width :=
  numcols_eq _ _ (List.ne_nil_of_length_pos (by rw [grayMatrix_length]; exact hH))
    (grayMatrix_rows img)

theorem maxRankOf_eq (img : Raster) (hW : 0 < img.width) (hH : 0 < img.height) :
    maxRankOf img = min img.height img.width := by
  unfold maxRankOf matOf
  by_cases h : img.width ≤ img.height
  · rw [if_pos h, grayMatrix_length, numcols_grayMatrix img hH]
  · rw [if_neg h, length_transpose, numcols_grayMatrix img hH,
      numcols_eq (transpose (grayMatrix img)) img.height
        (List.ne_nil_of_length_pos
          (by rw [length_transpose, numcols_grayMatrix img hH]; exact hW))
        (fun row hrow => by
          rw [mem_transpose_length _ row hrow, grayMatrix_length]),
      Nat.min_comm]

/-! Facts about the dot dispatch and the slice length. -/

theorem jsDotMatMat_of_ne_nil (A B : Mat) (hA : A ≠ []) (hB : B ≠ []) :
    jsDotMatMat A B = DotOut.mat (dot A B) := by
  cases A with
  | nil => exact absurd rfl hA
  | cons a as =>
    cases B with
    | nil => exact absurd rfl hB
    | cons b bs => rfl

theorem jsDotOuter_mat (A B : Mat) : jsDotOuter A (DotOut.mat B) = jsDotMatMat A B := rfl

theorem jsSlice_length_of_neg (l : List ℚ) (k : ℤ) (hk : k < 0) :
    (jsSlice l k).length = min (((l.length : ℤ) + k).toNat) l.length := by
  unfold jsSlice
  rw [if_pos hk, List.length_take]

/-! Claim theorems. -/

/-- C4: for a raster with positive dimensions, the luminance projector
yields a height×width matrix whose entry at row r, column c equals
0.299·R + 0.587·G + 0.114·B of the pixel at (r, c), the channels being
read at flat indices (r·width + c)·4, +1, +2; the alpha channel at +3 is
never read. -/
theorem C4_luminance_entry (img : Raster) (r c : ℕ)
    (hr : r < img.height) (hc : c < img.width) :
    (grayMatrix img).length = img.height ∧
    (∀ row ∈ grayMatrix img, row.length = img.width) ∧
    entryD (grayMatrix img) r c =
      (299 / 1000 : ℚ) * (img.data.getD ((r * img.width + c) * 4) 0 : ℕ)
        + (587 / 1000 : ℚ) * (img.data.getD ((r * img.width + c) * 4 + 1) 0 : ℕ)
        + (114 / 1000 : ℚ) * (img.data.getD ((r * img.width + c) * 4 + 2) 0 : ℕ) := by
  refine ⟨grayMatrix_length img, grayMatrix_rows img, ?_⟩
  unfold entryD grayMatrix
  rw [getD_range_map _ _ _ _ hr, getD_range_map _ _ _ _ hc]

/-- Witness for C4 at the 1×1 test raster. -/
theorem C4_witness :
    0 < raster1.height ∧ 0 < raster1.width ∧
    entryD (grayMatrix raster1) 0 0 =
      (299 / 1000 : ℚ) * (raster1.data.getD ((0 * raster1.width + 0) * 4) 0 : ℕ)
        + (587 / 1000 : ℚ) * (raster1.data.getD ((0 * raster1.width + 0) * 4 + 1) 0 : ℕ)
        + (114 / 1000 : ℚ) * (raster1.data.getD ((0 * raster1.width + 0) * 4 + 2) 0 : ℕ) :=
  ⟨Nat.one_pos, Nat.one_pos,
    (C4_luminance_entry raster1 0 0 Nat.one_pos Nat.one_pos).2.2⟩

/-- C7 counterexample: on a zero-width raster the luminance projection
does not fail at all: it returns the degenerate matrix with one empty
row, so no InvalidDimensions error is raised at zero width. -/
theorem C7_counterexample : grayMatrix raster0w = [[]] := by
  norm_num [grayMatrix, raster0w, List.range_succ]

/-- C7 amended: the luminance projector is total and never fails: for
every raster, zero-sized ones included, it produces the height×width
matrix (degenerate when a dimension is zero); there is no error to
propagate. -/
theorem C7_total (img : Raster) :
    (grayMatrix img).length = img.height ∧
    ∀ row ∈ grayMatrix img, row.length = img.width :=
  ⟨grayMatrix_length img, grayMatrix_rows img⟩

/-- C8: the pipeline output raster always carries the input raster's
width and height and a full 4·height·width channel sequence, for every
oracle, every image (transposed internally or not) and every requested k. -/
theorem C8_output_dims (svd : Mat → Mat × List ℚ × Mat) (img : Raster) (k : ℤ) :
    (compressCore svd img k).width = img.width ∧
    (compressCore svd img k).height = img.height ∧
    (compressCore svd img k).data.length = 4 * (img.height * img.width) :=
  ⟨rfl, rfl, writeData_length img.width img.height _⟩

/-- C10: with no file loaded the submission step does nothing: the state,
generation counter included, is returned unchanged and no computation is
started (no tag is produced). -/
theorem C10_no_file (s : AppState) (h : s.file = none) : submitStep s = (s, none) := by
  simp [submitStep, h]

/-- Witness for C10 at a concrete file-less state. -/
theorem C10_witness :
    (⟨none, 7, false, none, 0⟩ : AppState).file = none ∧
    submitStep ⟨none, 7, false, none, 0⟩ = (⟨none, 7, false, none, 0⟩, none) :=
  ⟨rfl, C10_no_file _ rfl⟩

/-- C1: the raster writer stores round(clamp(value, 0, 255)) in the R, G
and B channels of every pixel and 255 in A; each channel is a natural
number at most 255 at distance at most 1/2 from the clamped value
(rounding ties go to even, the conversion a canvas byte store applies),
and every value in the output sequence lies in [0, 255] however
pathological the matrix entries are. -/
theorem C1_writer (recon : Mat) (W H r c : ℕ) (hr : r < H) (hc : c < W) :
    ((writeRaster W H recon).data[(r * W + c) * 4]? =
        some (roundHalfEven (clamp255 (entryD recon r c))).toNat) ∧
    ((writeRaster W H recon).data[(r * W + c) * 4 + 1]? =
        some (roundHalfEven (clamp255 (entryD recon r c))).toNat) ∧
    ((writeRaster W H recon).data[(r * W + c) * 4 + 2]? =
        some (roundHalfEven (clamp255 (entryD recon r c))).toNat) ∧
    ((writeRaster W H recon).data[(r * W + c) * 4 + 3]? = some 255) ∧
    (roundHalfEven (clamp255 (entryD recon r c))).toNat ≤ 255 ∧
    |((roundHalfEven (clamp255 (entryD recon r c))).toNat : ℚ)
        - clamp255 (entryD recon r c)| ≤ 1 / 2 ∧
    (∀ x ∈ (writeRaster W H recon).data, x ≤ 255) := by
  have hdata : (writeRaster W H recon).data = writeData W H recon := rfl
  rw [hdata]
  have hW : 0 < W := by omega
  have hstep : (r + 1) * W = r * W + W := by ring
  have hmul : (r + 1) * W ≤ H * W := Nat.mul_le_mul_right W hr
  have hp : r * W + c < H * W := by omega
  have hrw : r * W + c = c + W * r := by ring
  have hdiv : (r * W + c) / W = r := by
    rw [hrw, Nat.add_mul_div_left c r hW, Nat.div_eq_of_lt hc, Nat.zero_add]
  have hmod : (r * W + c) % W = c := by
    rw [hrw, Nat.add_mul_mod_self_left, Nat.mod_eq_of_lt hc]
  have hch : ∀ j, j < 4 → (writeData W H recon)[4 * (r * W + c) + j]? =
      [(roundHalfEven (clamp255 (entryD recon r c))).toNat,
       (roundHalfEven (clamp255 (entryD recon r c))).toNat,
       (roundHalfEven (clamp255 (entryD recon r c))).toNat, 255][j]? := by
    intro j hj
    rw [writeData_getElem? W H recon _ j hp hj, hdiv, hmod]
  refine ⟨?_, ?_, ?_, ?_, lum_le_255 _, lum_dist _, ?_⟩
  · rw [show (r * W + c) * 4 = 4 * (r * W + c) + 0 from by ring]
    exact hch 0 (by omega)
  · rw [show (r * W + c) * 4 + 1 = 4 * (r * W + c) + 1 from by ring]
    exact hch 1 (by omega)
  · rw [show (r * W + c) * 4 + 2 = 4 * (r * W + c) + 2 from by ring]
    exact hch 2 (by omega)
  · rw [show (r * W + c) * 4 + 3 = 4 * (r * W + c) + 3 from by ring]
    exact hch 3 (by omega)
  · intro x hx
    rcases writeData_mem W H recon x hx with ⟨p, hxp⟩ | h255
    · rw [hxp]
      exact lum_le_255 _
    · omega

/-- Witness for C1 at a 1×1 matrix with an overshooting entry. -/
theorem C1_witness :
    0 < 1 ∧
    ((writeRaster 1 1 [[300]]).data[(0 * 1 + 0) * 4]? =
      some (roundHalfEven (clamp255 (entryD [[300]] 0 0))).toNat) ∧
    ((writeRaster 1 1 [[300]]).data[(0 * 1 + 0) * 4 + 3]? = some 255) :=
  ⟨Nat.one_pos, (C1_writer [[300]] 1 1 0 0 Nat.one_pos Nat.one_pos).1,
    (C1_writer [[300]] 1 1 0 0 Nat.one_pos Nat.one_pos).2.2.2.1⟩

/-- C3: the orientation normalizer transposes exactly the matrices with
fewer rows than columns (the returned flag recording it), leaves the
others untouched with a false flag, and the inverse step undoes the
forward step exactly, restoring the original dimensions and entries. -/
theorem C3_orientation (A : Mat) (m n : ℕ) (hm : A.length = m)
    (hn : ∀ row ∈ A, row.length = n) (hm1 : 0 < m) (hn1 : 0 < n) :
    ((orientForward A).2 = true ↔ m < n) ∧
    (m < n → (orientForward A).1 = transpose A ∧ (orientForward A).1.length = n ∧
      ∀ row ∈ (orientForward A).1, row.length = m) ∧
    (¬ m < n → orientForward A = (A, false)) ∧
    orientInverse (orientForward A).1 (orientForward A).2 = A := by
  have hne : A ≠ [] := List.ne_nil_of_length_pos (by rw [hm]; exact hm1)
  have hcols : numcols A = n := numcols_eq A n hne hn
  unfold orientForward orientInverse
  rw [hm, hcols]
  by_cases h : m < n
  · have hnm : ¬ n ≤ m := by omega
    rw [if_neg hnm]
    refine ⟨by simp [h], fun _ => ⟨rfl, by rw [length_transpose, hcols],
      fun row hrow => by rw [mem_transpose_length A row hrow, hm]⟩,
      fun hcon => absurd h hcon, ?_⟩
    show (if decide (m < n) = true then transpose (transpose A) else transpose A) = A
    rw [if_pos (by simp [h])]
    exact transpose_transpose A m n hm hn hm1 hn1
  · have hnm : n ≤ m := by omega
    rw [if_pos hnm]
    refine ⟨by simp [h], fun hcon => absurd hcon h, fun _ => by simp [h], ?_⟩
    show (if decide (m < n) = true then transpose A else A) = A
    rw [if_neg (by simp [h])]

/-- Witness for C3 at the wide 1×2 matrix [[1, 2]]. -/
theorem C3_witness :
    ([[1, 2]] : Mat).length = 1 ∧ (0 : ℕ) < 2 ∧
    ((orientForward [[1, 2]]).2 = true ↔ 1 < 2) ∧
    orientInverse (orientForward [[1, 2]]).1 (orientForward [[1, 2]]).2 = [[1, 2]] :=
  ⟨rfl, by omega,
    (C3_orientation [[1, 2]] 1 2 rfl (by simp) Nat.one_pos (by omega)).1,
    (C3_orientation [[1, 2]] 1 2 rfl (by simp) Nat.one_pos (by omega)).2.2.2⟩

/-- C2: the effective rank is min(k, length S) whenever the singular value
sequence has the contract length, and requesting any k at least
min(height, width) produces exactly the raster that k = min(height, width)
produces, with no error, for every oracle and image. -/
theorem C2_kEff_clamp (svd : Mat → Mat × List ℚ × Mat) (img : Raster) (k : ℤ)
    (hW : 0 < img.width) (hH : 0 < img.height)
    (hk : ((min img.height img.width : ℕ) : ℤ) ≤ k) :
    compressCore svd img k = compressCore svd img ((min img.height img.width : ℕ) : ℤ) ∧
    ∀ S : List ℚ, S.length = maxRankOf img →
      kEffOf k (maxRankOf img) = min k (S.length : ℤ) := by
  have hmr := maxRankOf_eq img hW hH
  constructor
  · unfold compressCore
    congr 1
    unfold kEffOf
    rw [hmr, min_eq_right hk, min_self]
  · intro S hS
    rw [hS]
    rfl

/-- Witness for C2: requesting k = 5 on the 1×1 raster equals requesting
the full rank 1. -/
theorem C2_witness :
    0 < raster1.width ∧ ((min raster1.height raster1.width : ℕ) : ℤ) ≤ 5 ∧
    compressCore svdOne raster1 5 =
      compressCore svdOne raster1 ((min raster1.height raster1.width : ℕ) : ℤ) :=
  ⟨Nat.one_pos, by decide,
    (C2_kEff_clamp svdOne raster1 5 Nat.one_pos Nat.one_pos (by decide)).1⟩

/-- C6 counterexample: the invocation k = -1 on a 2×2 image raises no
error and produces an output raster: the negative-end slice keeps one
component and the pipeline completes with the rank-1 reconstruction,
refuting that every invocation with k ≤ 0 raises InvalidRank and
produces no output; the error-aware dot dispatch confirms the
reconstruction is an actual matrix, not a thrown error. -/
theorem C6_counterexample :
    compressCore svdDiag raster2 (-1) =
      ⟨2, 2, [200, 200, 200, 255, 0, 0, 0, 255, 0, 0, 0, 255, 0, 0, 0, 255]⟩ ∧
    truncReconE [[1, 0], [0, 1]] [200, 100] [[1, 0], [0, 1]] (-1) =
      DotOut.mat [[200, 0], [0, 0]] := by
  constructor
  · norm_num [compressCore, compressAtKEff, matOf, maxRankOf, kEffOf, truncRecon, jsSlice,
      grayMatrix, raster2, svdDiag, writeRaster, writeData, entryD, clamp255, roundHalfEven,
      dot, diag, transpose, numcols, List.range_succ, Int.floor_eq_iff]
    decide
  · norm_num [truncReconE, jsDotOuter, jsDotMatMat, jsSlice, dot, diag, transpose, numcols,
      List.range_succ]

/-- C6 amended: non-positive k is never rejected and no InvalidRank
exists: the effective rank min(k, maxRank) is k itself for k ≤ 0 (the
clamp only acts from above); for k = 0, or k ≤ -width of the factors, the
truncated factors are empty, the inner dot of line 73 yields the number
NaN and the outer dot throws the library's generic dispatch error, so no
raster is produced but the error is not InvalidRank; and for strictly
negative k above -width the negative-end slice keeps width + k
components and the reconstruction is an actual matrix, so the run
completes with an output raster. -/
theorem C6_nonpos_k (U V : Mat) (S : List ℚ) (n : ℕ) (k : ℤ) (maxRank : ℕ)
    (hU : U ≠ []) (hUr : ∀ row ∈ U, row.length = n) (hS : S.length = n)
    (hV : V ≠ []) (hVr : ∀ row ∈ V, row.length = n) (hk : k ≤ 0) :
    kEffOf k maxRank = k ∧
    ((k = 0 ∨ k + (n : ℤ) ≤ 0) → truncReconE U S V k = DotOut.thrown) ∧
    (-(n : ℤ) < k → k < 0 →
      ∃ M : Mat, M ≠ [] ∧ truncReconE U S V k = DotOut.mat M) := by
  obtain ⟨u, us, rfl⟩ : ∃ u us, U = u :: us := by
    cases U with
    | nil => exact absurd rfl hU
    | cons u us => exact ⟨u, us, rfl⟩
  obtain ⟨v, vs, rfl⟩ : ∃ v vs, V = v :: vs := by
    cases V with
    | nil => exact absurd rfl hV
    | cons v vs => exact ⟨v, vs, rfl⟩
  refine ⟨min_eq_left (le_trans hk (Int.natCast_nonneg maxRank)), ?_, ?_⟩
  · intro hko
    have hempty : ∀ l : List ℚ, l.length = n → jsSlice l k = [] := by
      intro l hl
      unfold jsSlice
      split_ifs with hneg
      · have ht : ((l.length : ℤ) + k).toNat = 0 := by
          rw [hl]
          rcases hko with h0 | hn <;> omega
        rw [ht, List.take_zero]
      · have ht : k.toNat = 0 := by omega
        rw [ht, List.take_zero]
    show jsDotOuter ((u :: us).map fun row => jsSlice row k)
      (jsDotMatMat (diag (jsSlice S k))
        (transpose ((v :: vs).map fun row => jsSlice row k))) = DotOut.thrown
    rw [List.map_cons, List.map_cons, hempty u (hUr u (List.mem_cons_self u us)),
      hempty v (hVr v (List.mem_cons_self v vs)), hempty S hS]
    rfl
  · intro hlow hneg
    have hlen : ∀ l : List ℚ, l.length = n → (jsSlice l k).length = ((n : ℤ) + k).toNat := by
      intro l hl
      rw [jsSlice_length_of_neg l k hneg, hl]
      omega
    have hpos : 0 < ((n : ℤ) + k).toNat := by omega
    have hSk : diag (jsSlice S k) ≠ [] := by
      unfold diag
      intro hcon
      rw [List.map_eq_nil_iff, List.range_eq_nil, hlen S hS] at hcon
      omega
    have hT : transpose ((v :: vs).map fun row => jsSlice row k) ≠ [] := by
      apply List.ne_nil_of_length_pos
      rw [length_transpose]
      show 0 < (((v :: vs).map fun row => jsSlice row k).headD []).length
      rw [List.map_cons, List.headD_cons, hlen v (hVr v (List.mem_cons_self v vs))]
      exact hpos
    have hUk : (u :: us).map (fun row => jsSlice row k) ≠ [] := by
      rw [List.map_cons]
      exact List.cons_ne_nil _ _
    have hM : dot (diag (jsSlice S k))
        (transpose ((v :: vs).map fun row => jsSlice row k)) ≠ [] := by
      unfold dot
      rw [Ne, List.map_eq_nil_iff]
      exact hSk
    refine ⟨dot ((u :: us).map fun row => jsSlice row k)
      (dot (diag (jsSlice S k)) (transpose ((v :: vs).map fun row => jsSlice row k))),
      ?_, ?_⟩
    · unfold dot
      rw [Ne, List.map_eq_nil_iff]
      exact hUk
    · show jsDotOuter ((u :: us).map fun row => jsSlice row k)
        (jsDotMatMat (diag (jsSlice S k))
          (transpose ((v :: vs).map fun row => jsSlice row k))) =
        DotOut.mat (dot ((u :: us).map fun row => jsSlice row k)
          (dot (diag (jsSlice S k)) (transpose ((v :: vs).map fun row => jsSlice row k))))
      rw [jsDotMatMat_of_ne_nil _ _ hSk hT, jsDotOuter_mat,
        jsDotMatMat_of_ne_nil _ _ hUk hM]

/-- Witness for C6 amended: on the diagonal decomposition of width 2,
k = 0 throws in the dot dispatch while k = -1 yields an actual matrix. -/
theorem C6_witness :
    (0 : ℤ) ≤ 0 ∧ (-1 : ℤ) ≤ 0 ∧
    truncReconE [[1, 0], [0, 1]] [200, 100] [[1, 0], [0, 1]] 0 = DotOut.thrown ∧
    ∃ M : Mat, M ≠ [] ∧
      truncReconE [[1, 0], [0, 1]] [200, 100] [[1, 0], [0, 1]] (-1) = DotOut.mat M :=
  ⟨le_refl 0, by decide,
    (C6_nonpos_k [[1, 0], [0, 1]] [[1, 0], [0, 1]] [200, 100] 2 0 2 (by decide) (by decide)
      rfl (by decide) (by decide) (by decide)).2.1 (Or.inl rfl),
    (C6_nonpos_k [[1, 0], [0, 1]] [[1, 0], [0, 1]] [200, 100] 2 (-1) 2 (by decide) (by decide)
      rfl (by decide) (by decide) (by decide)).2.2 (by decide) (by decide)⟩

/-- C9: when the oracle meets the SVDEngine contract exactly, the
reconstruction at full effective rank min(M,N) keeps every column and
singular value, reproduces the decomposed matrix exactly, and so every
absolute entry error is below 1. -/
theorem C9_full_rank (A U V : Mat) (S : List ℚ) (m n : ℕ)
    (hU : ∀ row ∈ U, row.length = n) (hS : S.length = n)
    (hV : ∀ row ∈ V, row.length = n) (hnm : n ≤ m)
    (hsvd : IsExactSVD A U S V) :
    truncRecon U S V ((min m n : ℕ) : ℤ) = A ∧
    ∀ r c, |entryD (truncRecon U S V ((min m n : ℕ) : ℤ)) r c - entryD A r c| < 1 := by
  have hmin : min m n = n := Nat.min_eq_right hnm
  have hslice : ∀ l : List ℚ, l.length = n → jsSlice l ((n : ℕ) : ℤ) = l := by
    intro l hl
    unfold jsSlice
    rw [if_neg (by omega), Int.toNat_natCast]
    exact List.take_of_length_le (by omega)
  have hmap : ∀ M : Mat, (∀ row ∈ M, row.length = n) →
      M.map (fun row => jsSlice row ((n : ℕ) : ℤ)) = M := by
    intro M hM
    have h1 : M.map (fun row => jsSlice row ((n : ℕ) : ℤ)) = M.map id :=
      List.map_congr_left (fun row hrow => hslice row (hM row hrow))
    rw [h1, List.map_id]
  have heq : truncRecon U S V ((min m n : ℕ) : ℤ) = dot U (dot (diag S) (transpose V)) := by
    show dot (U.map (fun row => jsSlice row ((min m n : ℕ) : ℤ)))
        (dot (diag (jsSlice S ((min m n : ℕ) : ℤ)))
          (transpose (V.map (fun row => jsSlice row ((min m n : ℕ) : ℤ))))) =
      dot U (dot (diag S) (transpose V))
    rw [hmin, hmap U hU, hslice S hS, hmap V hV]
  rw [heq, hsvd]
  exact ⟨rfl, fun r c => by rw [sub_self, abs_zero]; norm_num⟩

/-- Witness for C9 at the exact decomposition of the 1×1 matrix [[100]]. -/
theorem C9_witness :
    ([100] : List ℚ).length = 1 ∧ IsExactSVD [[100]] [[1]] [100] [[1]] ∧
    truncRecon [[1]] [100] [[1]] ((min 1 1 : ℕ) : ℤ) = [[100]] :=
  ⟨rfl, by norm_num [IsExactSVD, dot, diag, transpose, numcols, List.range_succ],
    (C9_full_rank [[100]] [[1]] [[1]] [100] 1 1 (by simp) rfl (by simp) le_rfl
      (by norm_num [IsExactSVD, dot, diag, transpose, numcols, List.range_succ])).1⟩

/-- C5: a submission takes the next, strictly larger generation tag and
stores it as the current counter; completion never changes the counter; a
finished computation publishes its blob and size exactly when its tag
equals the current counter and is discarded without effect otherwise; and
in the two-submission scenario only the later submission's blob becomes
visible, whichever completion arrives first. -/
theorem C5_generation (s0 : AppState) (b1 z1 b2 z2 : ℕ)
    (hf : s0.file.isSome = true) (hne : b1 ≠ b2) :
    ((submitStep s0).2 = some (s0.genCounter + 1) ∧
      (submitStep s0).1.genCounter = s0.genCounter + 1 ∧
      s0.genCounter < s0.genCounter + 1) ∧
    (∀ (s : AppState) (tag b z : ℕ), (completeStep s tag b z).genCounter = s.genCounter) ∧
    (∀ (s : AppState) (tag b z : ℕ), tag = s.genCounter →
      (completeStep s tag b z).compressedURL = some b ∧
      (completeStep s tag b z).compSize = z ∧
      (completeStep s tag b z).isCompressing = false) ∧
    (∀ (s : AppState) (tag b z : ℕ), tag ≠ s.genCounter → completeStep s tag b z = s) ∧
    ((submitStep (submitStep s0).1).2 = some (s0.genCounter + 2) ∧
      (completeStep (completeStep (submitStep (submitStep s0).1).1
          (s0.genCounter + 2) b2 z2) (s0.genCounter + 1) b1 z1) =
        completeStep (submitStep (submitStep s0).1).1 (s0.genCounter + 2) b2 z2 ∧
      (completeStep (completeStep (submitStep (submitStep s0).1).1
          (s0.genCounter + 2) b2 z2) (s0.genCounter + 1) b1 z1).compressedURL = some b2 ∧
      completeStep (submitStep (submitStep s0).1).1 (s0.genCounter + 1) b1 z1 =
        (submitStep (submitStep s0).1).1 ∧
      (completeStep (completeStep (submitStep (submitStep s0).1).1
          (s0.genCounter + 1) b1 z1) (s0.genCounter + 2) b2 z2).compressedURL = some b2 ∧
      (completeStep (completeStep (submitStep (submitStep s0).1).1
          (s0.genCounter + 2) b2 z2) (s0.genCounter + 1) b1 z1).compressedURL ≠ some b1) := by
  obtain ⟨x, hx⟩ := Option.isSome_iff_exists.mp hf
  have hsub : ∀ (s : AppState) (y : ℕ), s.file = some y →
      (submitStep s).2 = some (s.genCounter + 1) ∧
      (submitStep s).1.genCounter = s.genCounter + 1 ∧
      (submitStep s).1.file = s.file := by
    intro s y hy
    unfold submitStep
    rw [hy]
    exact ⟨rfl, rfl, rfl⟩
  have htag1 : (submitStep s0).2 = some (s0.genCounter + 1) := (hsub s0 x hx).1
  have hgen1 : (submitStep s0).1.genCounter = s0.genCounter + 1 := (hsub s0 x hx).2.1
  have hfile1 : (submitStep s0).1.file = some x := by
    rw [(hsub s0 x hx).2.2, hx]
  have htag2 : (submitStep (submitStep s0).1).2 = some (s0.genCounter + 2) := by
    rw [(hsub (submitStep s0).1 x hfile1).1, hgen1]
  have hgen2 : (submitStep (submitStep s0).1).1.genCounter = s0.genCounter + 2 := by
    rw [(hsub (submitStep s0).1 x hfile1).2.1, hgen1]
  have hcgen : ∀ (s : AppState) (tag b z : ℕ),
      (completeStep s tag b z).genCounter = s.genCounter := by
    intro s tag b z
    unfold completeStep
    split_ifs <;> rfl
  have hhit : ∀ (s : AppState) (tag b z : ℕ), tag = s.genCounter →
      (completeStep s tag b z).compressedURL = some b ∧
      (completeStep s tag b z).compSize = z ∧
      (completeStep s tag b z).isCompressing = false := by
    intro s tag b z htag
    unfold completeStep
    rw [if_neg (by omega)]
    exact ⟨rfl, rfl, rfl⟩
  have hmiss : ∀ (s : AppState) (tag b z : ℕ), tag ≠ s.genCounter →
      completeStep s tag b z = s := by
    intro s tag b z htag
    unfold completeStep
    rw [if_pos (by omega)]
  have hB1 : (completeStep (submitStep (submitStep s0).1).1
      (s0.genCounter + 2) b2 z2).compressedURL = some b2 :=
    (hhit _ _ b2 z2 hgen2.symm).1
  have hA0 : completeStep (submitStep (submitStep s0).1).1 (s0.genCounter + 1) b1 z1 =
      (submitStep (submitStep s0).1).1 :=
    hmiss _ _ _ _ (by rw [hgen2]; omega)
  have hAB : completeStep (completeStep (submitStep (submitStep s0).1).1
        (s0.genCounter + 2) b2 z2) (s0.genCounter + 1) b1 z1 =
      completeStep (submitStep (submitStep s0).1).1 (s0.genCounter + 2) b2 z2 :=
    hmiss _ _ _ _ (by rw [hcgen, hgen2]; omega)
  refine ⟨⟨htag1, hgen1, by omega⟩, hcgen, hhit, hmiss, htag2, hAB, ?_, hA0, ?_, ?_⟩
  · rw [hAB]
    exact hB1
  · rw [hA0]
    exact hB1
  · rw [hAB, hB1]
    intro hcon
    exact hne (Option.some_inj.mp hcon).symm

/-- Witness for C5 at a concrete state with a loaded file. -/
theorem C5_witness :
    (⟨some 0, 0, false, none, 0⟩ : AppState).file.isSome = true ∧ (1 : ℕ) ≠ 2 ∧
    (submitStep ⟨some 0, 0, false, none, 0⟩).2 = some 1 ∧
    (completeStep (completeStep (submitStep (submitStep
        (⟨some 0, 0, false, none, 0⟩ : AppState)).1).1 2 2 20) 1 1 10).compressedURL =
      some 2 :=
  ⟨rfl, by omega, (C5_generation ⟨some 0, 0, false, none, 0⟩ 1 10 2 20 rfl (by omega)).1.1,
    (C5_generation ⟨some 0, 0, false, none, 0⟩ 1 10 2 20 rfl (by omega)).2.2.2.2.2.2.1⟩

end SVDComp
